import Mathlib

/-!
Verification of the key-disambiguation core of a Windows IME-toggle utility
(`src/main.rs`). The embedding covers:

* the `KeyManager` state machine (`key_down` / `key_up`), with the Rust
  `HashMap<u32, KeyState>` modelled as an association list with unique keys;
* `KeyManager::new`, parametrised by the two configured virtual-key codes
  (the Rust code reads them from `config.json`; file IO is out of scope);
* one iteration of `ime_control_thread` (the injection worker), parametrised
  by the physical keyboard state (`GetAsyncKeyState`) and by the OS event
  injector (`SendInput`), both treated as oracles;
* the hook callback's flag stores (`SHOULD_SEND_IME_OFF` / `SHOULD_SEND_IME_ON`)
  as a two-field record of booleans.
-/

/-- Virtual-key code of the left Ctrl key (`VK_LCONTROL`). -/
def VK_LCONTROL : Nat := 0xA2

/-- Virtual-key code of the right Ctrl key (`VK_RCONTROL`). -/
def VK_RCONTROL : Nat := 0xA3

/-- Virtual-key code `VK_IME_OFF`. -/
def VK_IME_OFF : Nat := 0x1A

/-- Virtual-key code `VK_IME_ON`. -/
def VK_IME_ON : Nat := 0x16

/-- The `KeyAction` enum of the source: which synthetic input to send. -/
inductive KeyAction where
  | ImeOff
  | ImeOn
deriving DecidableEq, BEq, Repr

/-- The `KeyState` struct of the source: per-tracked-key press state and
its associated action. -/
structure KeyState where
  pressed : Bool
  action : Option KeyAction
deriving DecidableEq, BEq, Repr

/-- The `KeyManager` struct: `states` models the Rust
`HashMap<u32, KeyState>` as an association list (key codes are `Nat`),
`other_key_pressed` is the interruption flag. -/
structure KeyManager where
  states : List (Nat × KeyState)
  other_key_pressed : Bool
deriving DecidableEq, Repr

/-- `HashMap::get` / `get_mut` lookup: the value stored at `k`, if any. -/
def lookupState (l : List (Nat × KeyState)) (k : Nat) : Option KeyState :=
  (l.find? (fun p => p.1 == k)).map (fun p => p.2)

/-- `HashMap::insert`: replace the binding of `k` if present, else append. -/
def hmInsert (l : List (Nat × KeyState)) (k : Nat) (v : KeyState) :
    List (Nat × KeyState) :=
  if l.any (fun p => p.1 == k) then
    l.map (fun p => if p.1 == k then (k, v) else p)
  else
    l ++ [(k, v)]

/-- In-place mutation through `get_mut`: rebind key `k` to `v`.  On a
well-formed map (unique keys) this touches exactly the entry found by
`lookupState`. -/
def hmUpdate (l : List (Nat × KeyState)) (k : Nat) (v : KeyState) :
    List (Nat × KeyState) :=
  l.map (fun p => if p.1 == k then (k, v) else p)

/-- Well-formedness of the `HashMap` model: key codes are pairwise distinct
(true of every real `HashMap` and of every state `KeyManager::new` builds). -/
def KeyManager.WF (m : KeyManager) : Prop :=
  (m.states.map Prod.fst).Nodup

/-- `KeyManager::new`, with the two key codes from `config.keys`
(`ime_off`, `ime_on`) passed explicitly. -/
def KeyManager.new (ime_off ime_on : Nat) : KeyManager :=
  let states := hmInsert [] ime_off { pressed := false, action := some KeyAction.ImeOff }
  let states := hmInsert states ime_on { pressed := false, action := some KeyAction.ImeOn }
  { states := states, other_key_pressed := false }

/-- `KeyManager::key_down`: a tracked key records `pressed = true`; an
untracked key sets `other_key_pressed` when some tracked key is held. -/
def KeyManager.key_down (m : KeyManager) (key_code : Nat) : KeyManager :=
  match lookupState m.states key_code with
  | some st =>
      { m with states := hmUpdate m.states key_code { st with pressed := true } }
  | none =>
      if m.states.any (fun p => p.2.pressed) then
        { m with other_key_pressed := true }
      else
        m

/-- `KeyManager::key_up`: returns the action fired (if any) together with
the successor state.  Mirrors the Rust control flow: a tracked key first
records `pressed = false`; if `other_key_pressed` is unset the key's action
is returned (early return, flag untouched), otherwise the flag is cleared
and `None` is returned.  An untracked key changes nothing. -/
def KeyManager.key_up (m : KeyManager) (key_code : Nat) :
    Option KeyAction × KeyManager :=
  match lookupState m.states key_code with
  | some st =>
      let m1 : KeyManager :=
        { m with states := hmUpdate m.states key_code { st with pressed := false } }
      if !m.other_key_pressed then
        (st.action, m1)
      else
        (none, { m1 with other_key_pressed := false })
  | none => (none, m)

/-- The key codes a `KeyManager` associates with a given action. -/
def trackedKeysFor (m : KeyManager) (a : KeyAction) : List Nat :=
  (m.states.filter (fun p => p.2.action == some a)).map Prod.fst

/-- How many tracked keys of `m` map to action `a`. -/
def countAction (m : KeyManager) (a : KeyAction) : Nat :=
  (m.states.filter (fun p => p.2.action == some a)).length

/-- The pair of `AtomicBool`s `SHOULD_SEND_IME_OFF` / `SHOULD_SEND_IME_ON`. -/
structure PendingFlags where
  should_send_ime_off : Bool
  should_send_ime_on : Bool
deriving DecidableEq, Repr

/-- The store performed by `hook_callback` when `key_up` returns an action:
set the corresponding flag to `true`. -/
def requestAction (a : KeyAction) (s : PendingFlags) : PendingFlags :=
  match a with
  | KeyAction.ImeOff => { s with should_send_ime_off := true }
  | KeyAction.ImeOn => { s with should_send_ime_on := true }

/-- The load performed by the worker: is the flag for `a` set? -/
def isPending (s : PendingFlags) (a : KeyAction) : Bool :=
  match a with
  | KeyAction.ImeOff => s.should_send_ime_off
  | KeyAction.ImeOn => s.should_send_ime_on

/-- `is_key_pressed`: `GetAsyncKeyState(vk) < 0`, i.e. the oracle `phys`
answering whether virtual key `vk` is physically held right now. -/
def is_key_pressed (phys : Nat → Bool) (vk : Nat) : Bool :=
  phys vk

/-- `send_ime_off`: hand `SendInput` a key-down then key-up of `VK_IME_OFF`
(the `Bool` marks `KEYEVENTF_KEYUP`); the oracle returns the number of
events successfully synthesized. -/
def send_ime_off (sendInput : List (Nat × Bool) → Nat) : Nat :=
  sendInput [(VK_IME_OFF, false), (VK_IME_OFF, true)]

/-- `send_ime_on`: key-down then key-up of `VK_IME_ON` via `SendInput`. -/
def send_ime_on (sendInput : List (Nat × Bool) → Nat) : Nat :=
  sendInput [(VK_IME_ON, false), (VK_IME_ON, true)]

/-- One iteration of the `ime_control_thread` loop body (one worker tick).
For each set flag whose hard-coded Ctrl key is not physically held, the
injection runs and the flag is cleared.  Returns the successor flags and the
list of injections performed this tick, each with the count `SendInput`
reported. -/
def imeTick (phys : Nat → Bool) (sendInput : List (Nat × Bool) → Nat)
    (s : PendingFlags) : PendingFlags × List (KeyAction × Nat) :=
  let step1 :=
    if s.should_send_ime_off then
      if !is_key_pressed phys VK_LCONTROL then
        ({ s with should_send_ime_off := false },
          [(KeyAction.ImeOff, send_ime_off sendInput)])
      else (s, [])
    else (s, [])
  let s1 := step1.1
  if s1.should_send_ime_on then
    if !is_key_pressed phys VK_RCONTROL then
      ({ s1 with should_send_ime_on := false },
        step1.2 ++ [(KeyAction.ImeOn, send_ime_on sendInput)])
    else (s1, step1.2)
  else (s1, step1.2)

/-- The virtual-key code the worker's physical-state confirmation actually
queries for each action: hard-coded `VK_LCONTROL` / `VK_RCONTROL` in
`ime_control_thread`, independent of the configuration. -/
def workerQueryKey (a : KeyAction) : Nat :=
  match a with
  | KeyAction.ImeOff => VK_LCONTROL
  | KeyAction.ImeOn => VK_RCONTROL

/-- Injections for action `a` among the injections of a tick. -/
def countInj (l : List (KeyAction × Nat)) (a : KeyAction) : Nat :=
  (l.filter (fun p => p.1 == a)).length

/-! ### Lemmas about the `HashMap` model -/

theorem lookupState_cons (p : Nat × KeyState) (t : List (Nat × KeyState)) (k : Nat) :
    lookupState (p :: t) k = if p.1 == k then some p.2 else lookupState t k := by
  by_cases h : (p.1 == k) = true
  · simp [lookupState, List.find?_cons_of_pos _ h, h]
  · simp [lookupState, List.find?_cons_of_neg _ h, h]

theorem lookupState_hmUpdate_self (l : List (Nat × KeyState)) (k : Nat)
    (v st : KeyState) (h : lookupState l k = some st) :
    lookupState (hmUpdate l k v) k = some v := by
  induction l with
  | nil => simp [lookupState] at h
  | cons p t ih =>
    rw [lookupState_cons] at h
    by_cases hp : p.1 = k
    · simp [hmUpdate, hp, lookupState_cons]
    · have hp' : (p.1 == k) = false := by simpa using hp
      simp [hp'] at h
      have ht := ih h
      simp [hmUpdate] at ht
      simp [hmUpdate, lookupState_cons, hp, hp', ht]

theorem lookupState_hmUpdate_none (l : List (Nat × KeyState)) (k u : Nat)
    (v : KeyState) (h : lookupState l u = none) :
    lookupState (hmUpdate l k v) u = none := by
  induction l with
  | nil => simp [hmUpdate, lookupState]
  | cons p t ih =>
    rw [lookupState_cons] at h
    by_cases hpu : p.1 = u
    · simp [hpu] at h
    · have hpu' : (p.1 == u) = false := by simpa using hpu
      simp [hpu'] at h
      have ht := ih h
      simp [hmUpdate] at ht
      by_cases hpk : p.1 = k
      · have hku : ¬k = u := by rw [← hpk]; exact hpu
        simp [hmUpdate, hpk, lookupState_cons, hku, ht]
      · simp [hmUpdate, hpk, lookupState_cons, hpu, ht]

theorem hmUpdate_any_pressed (l : List (Nat × KeyState)) (k : Nat)
    (v st : KeyState) (h : lookupState l k = some st) (hv : v.pressed = true) :
    (hmUpdate l k v).any (fun p => p.2.pressed) = true := by
  induction l with
  | nil => simp [lookupState] at h
  | cons p t ih =>
    rw [lookupState_cons] at h
    by_cases hp : p.1 = k
    · simp [hmUpdate, hp, hv]
    · have hp' : (p.1 == k) = false := by simpa using hp
      simp [hp'] at h
      have ht := ih h
      simp [hmUpdate] at ht
      simp [hmUpdate, hp, ht]

theorem hmUpdate_not_mem (l : List (Nat × KeyState)) (k : Nat) (v : KeyState)
    (h : ∀ p ∈ l, (p.1 == k) = false) : hmUpdate l k v = l := by
  induction l with
  | nil => rfl
  | cons p t ih =>
    have hp : ¬p.1 = k := by simpa using h p (by simp)
    have ht := ih fun q hq => h q (by simp [hq])
    simp [hmUpdate] at ht
    simp [hmUpdate, hp, ht]

theorem hmUpdate_self_eq (l : List (Nat × KeyState)) (k : Nat) (st : KeyState)
    (hnd : (l.map Prod.fst).Nodup) (h : lookupState l k = some st) :
    hmUpdate l k st = l := by
  induction l with
  | nil => rfl
  | cons p t ih =>
    rw [lookupState_cons] at h
    rw [List.map_cons, List.nodup_cons] at hnd
    by_cases hp : p.1 = k
    · have hbeq : (p.1 == k) = true := by simpa using hp
      simp [hbeq] at h
      have hkt : ∀ q ∈ t, (q.1 == k) = false := by
        intro q hq
        have hq1 : q.1 ∈ List.map Prod.fst t := List.mem_map_of_mem Prod.fst hq
        simp only [beq_eq_false_iff_ne]
        intro he
        have hpq : p.1 = q.1 := by rw [hp, he]
        exact hnd.1 (hpq ▸ hq1)
      have ht := hmUpdate_not_mem t k st hkt
      simp [hmUpdate] at ht
      have hpe : (k, st) = p := by rw [← hp, ← h]
      simp [hmUpdate, hp, ht]
      exact hpe
    · have hp' : (p.1 == k) = false := by simpa using hp
      simp [hp'] at h
      have ht := ih hnd.2 h
      simp [hmUpdate] at ht
      simp [hmUpdate, hp, ht]

/-! ### Structure of the startup state -/

theorem new_states_eq (ime_off ime_on : Nat) :
    (KeyManager.new ime_off ime_on).states =
      if ime_off = ime_on then
        [(ime_on, { pressed := false, action := some KeyAction.ImeOn })]
      else
        [(ime_off, { pressed := false, action := some KeyAction.ImeOff }),
         (ime_on, { pressed := false, action := some KeyAction.ImeOn })] := by
  by_cases h : ime_off = ime_on <;>
    simp [KeyManager.new, hmInsert, h]

theorem new_action_isSome (ime_off ime_on k : Nat) (st : KeyState)
    (hk : lookupState (KeyManager.new ime_off ime_on).states k = some st) :
    ∃ a, st.action = some a := by
  rw [new_states_eq] at hk
  by_cases h : ime_off = ime_on
  · rw [if_pos h, lookupState_cons] at hk
    by_cases h2 : ime_on = k
    · simp [h2] at hk
      exact ⟨KeyAction.ImeOn, by rw [← hk]⟩
    · simp [h2, lookupState] at hk
  · rw [if_neg h, lookupState_cons] at hk
    by_cases h2 : ime_off = k
    · simp [h2] at hk
      exact ⟨KeyAction.ImeOff, by rw [← hk]⟩
    · rw [lookupState_cons] at hk
      by_cases h3 : ime_on = k
      · simp [h2, h3] at hk
        exact ⟨KeyAction.ImeOn, by rw [← hk]⟩
      · simp [h2, h3, lookupState] at hk

theorem key_down_up_no_interrupt (m : KeyManager) (k : Nat) (st : KeyState)
    (hb : m.other_key_pressed = false)
    (hk : lookupState m.states k = some st) :
    ((m.key_down k).key_up k).1 = st.action := by
  obtain ⟨l, b⟩ := m
  simp only at hk hb
  subst hb
  have h1 : KeyManager.key_down ⟨l, false⟩ k
      = ⟨hmUpdate l k { st with pressed := true }, false⟩ := by
    simp [KeyManager.key_down, hk]
  rw [h1]
  have hk1 : lookupState (hmUpdate l k { st with pressed := true }) k
      = some { st with pressed := true } :=
    lookupState_hmUpdate_self l k _ st hk
  simp [KeyManager.key_up, hk1]

/-! ### Claim theorems -/

/-- Claim C1, counterexample: with the default configuration
(left Ctrl tracked for ImeOff, right Ctrl for ImeOn), the sequence
down(0xA2), down(0xA3), up(0xA3), up(0xA2) ends with `key_up 0xA2`
returning `some ImeOff`, not `None`: a second *tracked* key's down is
handled by the first branch of `key_down` and never sets
`other_key_pressed`, so it does not interrupt the first key's sequence. -/
theorem C1_counterexample :
    ((((((KeyManager.new 0xA2 0xA3).key_down 0xA2).key_down 0xA3).key_up
      0xA3).2).key_up 0xA2).1 ≠ none := by decide

/-- Claim C1 (amended): for every Disambiguator state, if a tracked key `k`
receives key-down, then an *untracked* key `u` receives key-down and key-up,
and then `k` receives key-up, that final `key_up` returns `None`.  (The
original claim also allowed the intervening key to be tracked; the code
records an interruption only for untracked keys, see `C1_counterexample`.) -/
theorem C1_amended (m : KeyManager) (k u : Nat) (st : KeyState)
    (hk : lookupState m.states k = some st)
    (hu : lookupState m.states u = none) :
    (((((m.key_down k).key_down u).key_up u).2).key_up k).1 = none := by
  obtain ⟨l, b⟩ := m
  simp only at hk hu
  have h1 : KeyManager.key_down ⟨l, b⟩ k
      = ⟨hmUpdate l k { st with pressed := true }, b⟩ := by
    simp [KeyManager.key_down, hk]
  rw [h1]
  have hu1 : lookupState (hmUpdate l k { st with pressed := true }) u = none :=
    lookupState_hmUpdate_none l k u _ hu
  have hany : ((hmUpdate l k { st with pressed := true }).any
      (fun p => p.2.pressed)) = true :=
    hmUpdate_any_pressed l k _ st hk rfl
  have h2 : KeyManager.key_down ⟨hmUpdate l k { st with pressed := true }, b⟩ u
      = ⟨hmUpdate l k { st with pressed := true }, true⟩ := by
    simp [KeyManager.key_down, hu1, hany]
  rw [h2]
  have h3 : KeyManager.key_up ⟨hmUpdate l k { st with pressed := true }, true⟩ u
      = (none, ⟨hmUpdate l k { st with pressed := true }, true⟩) := by
    simp [KeyManager.key_up, hu1]
  rw [h3]
  have hk1 : lookupState (hmUpdate l k { st with pressed := true }) k
      = some { st with pressed := true } :=
    lookupState_hmUpdate_self l k _ st hk
  simp [KeyManager.key_up, hk1]

/-- Witness for `C1_amended` at a concrete input: default configuration,
tracked key 0xA2, untracked key 0x41. -/
theorem C1_amended_witness :
    ((((((KeyManager.new 0xA2 0xA3).key_down 0xA2).key_down 0x41).key_up
      0x41).2).key_up 0xA2).1 = none :=
  C1_amended (KeyManager.new 0xA2 0xA3) 0xA2 0x41
    { pressed := false, action := some KeyAction.ImeOff } (by decide) (by decide)

/-- Claim C3: immediately after `key_up` for a tracked key, the
`other_key_pressed` (interrupted) flag is `false`, whatever the call
returned: the early-return branch is only taken when the flag is already
`false`, and the other branch clears it. -/
theorem C3_interrupted_cleared (m : KeyManager) (k : Nat) (st : KeyState)
    (hk : lookupState m.states k = some st) :
    ((m.key_up k).2).other_key_pressed = false := by
  obtain ⟨l, b⟩ := m
  simp only at hk
  cases b <;> simp [KeyManager.key_up, hk]

/-- Witness for `C3_interrupted_cleared` at a concrete input. -/
theorem C3_witness :
    (((KeyManager.new 0xA2 0xA3).key_up 0xA2).2).other_key_pressed = false :=
  C3_interrupted_cleared (KeyManager.new 0xA2 0xA3) 0xA2
    { pressed := false, action := some KeyAction.ImeOff } (by decide)

/-- Claim C4: starting from the startup state, a tracked key's key-down
immediately followed by its key-up makes `key_up` return `Some a`, where
`a` is the action associated with that key. -/
theorem C4_isolated_tap (ime_off ime_on k : Nat) (st : KeyState)
    (hk : lookupState (KeyManager.new ime_off ime_on).states k = some st) :
    ∃ a, st.action = some a ∧
      (((KeyManager.new ime_off ime_on).key_down k).key_up k).1 = some a := by
  obtain ⟨a, ha⟩ := new_action_isSome ime_off ime_on k st hk
  refine ⟨a, ha, ?_⟩
  rw [key_down_up_no_interrupt (KeyManager.new ime_off ime_on) k st rfl hk, ha]

/-- Witness for `C4_isolated_tap` at a concrete input: default
configuration, tap of the left Ctrl key. -/
theorem C4_witness :
    ∃ a, ({ pressed := false, action := some KeyAction.ImeOff } : KeyState).action
        = some a ∧
      (((KeyManager.new 0xA2 0xA3).key_down 0xA2).key_up 0xA2).1 = some a :=
  C4_isolated_tap 0xA2 0xA3 0xA2
    { pressed := false, action := some KeyAction.ImeOff } (by decide)

/-- Claim C2, code-bug evaluation: with the configuration
`{ ime_off := 0x41, ime_on := 0xA3 }` the tracked key for `ImeOff` is 0x41,
but the worker's physical-state confirmation queries the hard-coded
`VK_LCONTROL` (0xA2).  With the configured key 0x41 physically held and
0xA2 released, a pending `ImeOff` is injected on that very tick instead of
being deferred. -/
theorem C2_code_bug :
    trackedKeysFor (KeyManager.new 0x41 0xA3) KeyAction.ImeOff = [0x41] ∧
    workerQueryKey KeyAction.ImeOff = VK_LCONTROL ∧
    (imeTick (fun n => n == 0x41) (fun l => l.length)
      { should_send_ime_off := true, should_send_ime_on := false }).2
      = [(KeyAction.ImeOff, 2)] := by decide

/-- Claim C5, counterexample: when the two configured codes coincide
(`ime_off = ime_on = 5`), the second `HashMap::insert` overwrites the
first, so no tracked key maps to `ImeOff` — the startup state does not
contain one tracked key per action. -/
theorem C5_counterexample :
    ¬(countAction (KeyManager.new 5 5) KeyAction.ImeOff = 1 ∧
      countAction (KeyManager.new 5 5) KeyAction.ImeOn = 1) := by decide

/-- Claim C5 (amended): when the two configured codes are distinct the
startup state has exactly one tracked key per action; when they coincide
the single tracked key maps to `ImeOn` and none maps to `ImeOff`. -/
theorem C5_amended (ime_off ime_on : Nat) :
    countAction (KeyManager.new ime_off ime_on) KeyAction.ImeOff
      = (if ime_off = ime_on then 0 else 1) ∧
    countAction (KeyManager.new ime_off ime_on) KeyAction.ImeOn = 1 := by
  have hOffOff : ((some KeyAction.ImeOff : Option KeyAction)
      == some KeyAction.ImeOff) = true := rfl
  have hOnOff : ((some KeyAction.ImeOn : Option KeyAction)
      == some KeyAction.ImeOff) = false := rfl
  have hOffOn : ((some KeyAction.ImeOff : Option KeyAction)
      == some KeyAction.ImeOn) = false := rfl
  have hOnOn : ((some KeyAction.ImeOn : Option KeyAction)
      == some KeyAction.ImeOn) = true := rfl
  unfold countAction
  rw [new_states_eq]
  by_cases h : ime_off = ime_on <;>
    simp [h, List.filter_cons, hOffOff, hOnOff, hOffOn, hOnOn]

/-- Claim C6: two `request` stores of the same action before a worker tick
coalesce in the single pending flag, and a tick whose physical-state check
passes injects that action exactly once. -/
theorem C6_coalesced_injection (phys : Nat → Bool)
    (sendInput : List (Nat × Bool) → Nat) (s : PendingFlags) (a : KeyAction)
    (h : phys (workerQueryKey a) = false) :
    countInj (imeTick phys sendInput (requestAction a (requestAction a s))).2 a
      = 1 := by
  have hOO : (KeyAction.ImeOff == KeyAction.ImeOff) = true := rfl
  have hNO : (KeyAction.ImeOn == KeyAction.ImeOff) = false := rfl
  have hON : (KeyAction.ImeOff == KeyAction.ImeOn) = false := rfl
  have hNN : (KeyAction.ImeOn == KeyAction.ImeOn) = true := rfl
  obtain ⟨so, son⟩ := s
  cases a
  · simp only [workerQueryKey] at h
    cases hon : phys VK_RCONTROL <;> cases son <;>
      simp [requestAction, imeTick, is_key_pressed, countInj, h, hon,
        List.filter_cons, hOO, hNO, hON, hNN]
  · simp only [workerQueryKey] at h
    cases hoff : phys VK_LCONTROL <;> cases so <;>
      simp [requestAction, imeTick, is_key_pressed, countInj, h, hoff,
        List.filter_cons, hOO, hNO, hON, hNN]

/-- Witness for `C6_coalesced_injection` at a concrete input. -/
theorem C6_witness :
    countInj (imeTick (fun _ => false) (fun l => l.length)
      (requestAction KeyAction.ImeOff (requestAction KeyAction.ImeOff
        { should_send_ime_off := false, should_send_ime_on := false }))).2
      KeyAction.ImeOff = 1 :=
  C6_coalesced_injection (fun _ => false) (fun l => l.length)
    { should_send_ime_off := false, should_send_ime_on := false }
    KeyAction.ImeOff rfl

/-- Claim C7: on a tick that attempts an injection for a pending action
(the physical-state check passed), the pending flag ends up cleared for
*every* possible `SendInput` oracle, i.e. regardless of the count of
successfully synthesized events; failures are not retried. -/
theorem C7_flag_cleared (phys : Nat → Bool)
    (sendInput : List (Nat × Bool) → Nat) (s : PendingFlags) (a : KeyAction)
    (hp : isPending s a = true)
    (hr : phys (workerQueryKey a) = false) :
    isPending (imeTick phys sendInput s).1 a = false := by
  obtain ⟨so, son⟩ := s
  cases a
  · simp only [isPending] at hp ⊢
    simp only [workerQueryKey] at hr
    subst hp
    cases hon : phys VK_RCONTROL <;> cases son <;>
      simp [imeTick, is_key_pressed, hr, hon]
  · simp only [isPending] at hp ⊢
    simp only [workerQueryKey] at hr
    subst hp
    cases hoff : phys VK_LCONTROL <;> cases so <;>
      simp [imeTick, is_key_pressed, hr, hoff]

/-- Witness for `C7_flag_cleared` at a concrete input, with a `SendInput`
oracle reporting total failure (count 0). -/
theorem C7_witness :
    isPending (imeTick (fun _ => false) (fun _ => 0)
      { should_send_ime_off := true, should_send_ime_on := false }).1
      KeyAction.ImeOff = false :=
  C7_flag_cleared (fun _ => false) (fun _ => 0)
    { should_send_ime_off := true, should_send_ime_on := false }
    KeyAction.ImeOff rfl rfl

/-- Claim C8: an auto-repeat `key_down` for a tracked key that is already
pressed leaves the whole `KeyManager` unchanged (on a well-formed state,
i.e. one whose `HashMap` model has no duplicate key codes). -/
theorem C8_autorepeat_noop (m : KeyManager) (k : Nat) (st : KeyState)
    (hwf : m.WF) (hk : lookupState m.states k = some st)
    (hp : st.pressed = true) :
    m.key_down k = m := by
  obtain ⟨l, b⟩ := m
  simp only [KeyManager.WF] at hwf
  simp only at hk hwf
  have hst : ({ st with pressed := true } : KeyState) = st := by
    obtain ⟨sp, sa⟩ := st
    simp only at hp
    rw [hp]
  simp [KeyManager.key_down, hk, hst, hmUpdate_self_eq l k st hwf hk]

/-- Witness for `C8_autorepeat_noop` at a concrete input: left Ctrl held,
auto-repeat down. -/
theorem C8_witness :
    ((KeyManager.new 0xA2 0xA3).key_down 0xA2).key_down 0xA2
      = (KeyManager.new 0xA2 0xA3).key_down 0xA2 :=
  C8_autorepeat_noop ((KeyManager.new 0xA2 0xA3).key_down 0xA2) 0xA2
    { pressed := true, action := some KeyAction.ImeOff }
    (by unfold KeyManager.WF; decide) (by decide) rfl

/-- Claim C9: `key_up` of an untracked key returns `None` and leaves the
`KeyManager` exactly as it was. -/
theorem C9_untracked_keyup_noop (m : KeyManager) (k : Nat)
    (hk : lookupState m.states k = none) :
    m.key_up k = (none, m) := by
  simp [KeyManager.key_up, hk]

/-- Witness for `C9_untracked_keyup_noop` at a concrete input. -/
theorem C9_witness :
    (KeyManager.new 0xA2 0xA3).key_up 0x41 = (none, KeyManager.new 0xA2 0xA3) :=
  C9_untracked_keyup_noop (KeyManager.new 0xA2 0xA3) 0x41 (by decide)

/-- Claim C10: with the interrupted flag unset, `key_up` of a tracked key
returns that key's action even when the key's `pressed` flag is already
`false` (a key-up with no previously observed key-down still fires). -/
theorem C10_keyup_unseen_down (m : KeyManager) (k : Nat) (st : KeyState)
    (a : KeyAction)
    (hb : m.other_key_pressed = false)
    (hk : lookupState m.states k = some st)
    (_hp : st.pressed = false)
    (ha : st.action = some a) :
    (m.key_up k).1 = some a := by
  obtain ⟨l, b⟩ := m
  simp only at hb hk
  subst hb
  simp [KeyManager.key_up, hk, ha]

/-- Witness for `C10_keyup_unseen_down` at a concrete input: a key-up of
left Ctrl arriving in the startup state, with no down ever observed. -/
theorem C10_witness :
    ((KeyManager.new 0xA2 0xA3).key_up 0xA2).1 = some KeyAction.ImeOff :=
  C10_keyup_unseen_down (KeyManager.new 0xA2 0xA3) 0xA2
    { pressed := false, action := some KeyAction.ImeOff }
    KeyAction.ImeOff rfl (by decide) rfl rfl
